import Mathlib

/-!
Verification of the ollama-model-downloader pull engine against its
specification.  Each Go function that a claim touches is shallowly embedded
as an executable Lean definition: strings stay strings, byte streams become
lists of naturals, machine integers become `Int` with explicit two's
complement wrapping where overflow is reachable, and the outside world
(HTTP responses, the file system, the random source) is passed in as
explicit arguments.  The theorems at the end of the file settle the claims.
-/

namespace OllamaDL

/-! ## Media types (download.go, constants) -/

def mtOCIIndex : String := "application/vnd.oci.image.index.v1+json"

def mtDockerIndex : String := "application/vnd.docker.distribution.manifest.list.v2+json"

def mtOCIManifest : String := "application/vnd.oci.image.manifest.v1+json"

def mtDockerManifest : String := "application/vnd.docker.distribution.manifest.v2+json"

/-! ## Two's-complement helpers

Go's `int`/`int64`/`time.Duration` are 64-bit; `wrap64` reduces an
unbounded integer to that range. -/

def wrap64 (n : Int) : Int := (n + 2 ^ 63) % 2 ^ 64 - 2 ^ 63

/-! ## Platform selection (download.go, `run`, index branch)

`strings.EqualFold` is modelled on ASCII case folding,
`arch[len(arch)-1]` after `strings.Split(platform, "/")` as the suffix
following the last slash, and `sort.Strings` by insertion sort under the
lexicographic character order. -/

def eqFold (a b : String) : Bool :=
  a.data.map Char.toLower == b.data.map Char.toLower

def lastSegment (platform : String) : String :=
  String.mk ((platform.data.reverse.takeWhile (fun c => c ≠ '/')).reverse)

/-- Lexicographic comparison of character lists, mirroring the byte-wise
comparison Go uses for `sort.Strings`. -/
def charListLe : List Char → List Char → Bool
  | [], _ => true
  | _ :: _, [] => false
  | a :: as, b :: bs => if a < b then true else if b < a then false else charListLe as bs

def goStringLe (a b : String) : Bool := charListLe a.data b.data

structure PlatEntry where
  os : String
  architecture : String
  digest : String
deriving DecidableEq, Repr

structure ImageIndexM where
  manifests : List PlatEntry
deriving DecidableEq, Repr

def matchesPlatform (platform : String) (m : PlatEntry) : Bool :=
  eqFold m.os "linux" && eqFold m.architecture (lastSegment platform)

def selectCandidates (ms : List PlatEntry) (platform : String) : List String :=
  (ms.filter (matchesPlatform platform)).map PlatEntry.digest

def chooseDigest (ms : List PlatEntry) (platform : String) : Option String :=
  (List.insertionSort (fun a b => goStringLe a b = true)
    (selectCandidates ms platform)).head?

/-! ## Manifest / index documents and the resolver switch
(download.go, `run`, lines 176-265)

A fetched body is abstracted by what `json.Unmarshal` would yield for it
under the two Go struct shapes; `none` models a decode error. -/

structure BlobDesc where
  digest : String
  size : Int
deriving DecidableEq, Repr

structure ImageManifestM where
  config : BlobDesc
  layers : List BlobDesc
deriving DecidableEq, Repr

structure Body where
  asManifest : Option ImageManifestM
  asIndex : Option ImageIndexM
deriving DecidableEq, Repr

/-- Index branch of the default (auto-detect) case of the media-type switch
in `run` (download.go lines 229-259): decode as index, select the platform
manifest, refetch and decode it without any media-type check. -/
def autodetectIndex (fetch : String → Except String (Body × String))
    (firstBody : Body) (manifestType platform : String) :
    Except String ImageManifestM :=
  match firstBody.asIndex with
  | some idx =>
    if idx.manifests ≠ [] then
      match chooseDigest idx.manifests platform with
      | none => .error ("no manifest for platform " ++ platform ++ " found in index (fallback)")
      | some chosen =>
        match fetch chosen with
        | .error e => .error e
        | .ok (body2, _) =>
          match body2.asManifest with
          | none => .error "decode chosen manifest (fallback)"
          | some m => .ok m
    else .error ("unsupported manifest type: " ++ manifestType)
  | none => .error ("unsupported manifest type: " ++ manifestType)

/-- The media-type switch of `run` (download.go lines 176-265).
`manifestType` is the Content-Type of the first fetch, `firstBody` its
body, and `fetch` performs the follow-up `getManifestOrIndex` call for a
chosen digest, returning a body and its Content-Type.  Mirrors the source
exactly; in particular the `unexpected mediaType` guard in the index case
tests the unchanged `manifestType` variable, not the Content-Type returned
by the follow-up fetch. -/
def resolveManifest (fetch : String → Except String (Body × String))
    (firstBody : Body) (manifestType platform : String) :
    Except String ImageManifestM :=
  if manifestType = mtOCIManifest ∨ manifestType = mtDockerManifest then
    match firstBody.asManifest with
    | none => .error "decode manifest"
    | some m => .ok m
  else if manifestType = mtOCIIndex ∨ manifestType = mtDockerIndex then
    match firstBody.asIndex with
    | none => .error "decode index"
    | some idx =>
      match chooseDigest idx.manifests platform with
      | none => .error ("no manifest for platform " ++ platform ++ " found in index")
      | some chosen =>
        match fetch chosen with
        | .error e => .error e
        | .ok (body2, _) =>
          if manifestType ≠ mtOCIManifest ∧ manifestType ≠ mtDockerManifest then
            .error ("unexpected mediaType for chosen manifest: " ++ manifestType)
          else
            match body2.asManifest with
            | none => .error "decode chosen manifest"
            | some m => .ok m
  else
    match firstBody.asManifest with
    | some m =>
      if m.config.digest ≠ "" ∨ m.layers ≠ [] then .ok m
      else autodetectIndex fetch firstBody manifestType platform
    | none => autodetectIndex fetch firstBody manifestType platform

/-! ## Blob dedup (download.go, `dedupeBlobs`) -/

structure BlobItem where
  digest : String
  size : Int
deriving DecidableEq, Repr

def dedupeBlobsGo (seen : List String) : List BlobItem → List BlobItem
  | [] => []
  | it :: rest =>
    if it.digest ∈ seen then dedupeBlobsGo seen rest
    else it :: dedupeBlobsGo (it.digest :: seen) rest

def dedupeBlobs (items : List BlobItem) : List BlobItem :=
  dedupeBlobsGo [] items

/-! ## Blob download (download.go, `downloadBlob`)

The blobs directory is reduced to the two paths the function touches:
the final file `sha256-<hex>` and the in-progress `sha256-<hex>.part`,
each `none` when absent and `some bytes` when present (bytes as `Nat`).
SHA-256 is an opaque parameter `H` from byte lists to hex strings; the
registry is a function `resp` from the requested range start to a status
code and a body.  The outcome records the issued requests and the net
delta sent to the shared progress counter. -/

structure BlobWorld where
  outFile : Option (List Nat)
  partFile : Option (List Nat)
deriving DecidableEq, Repr

inductive BlobResult where
  | ok
  | fail (msg : String)
deriving DecidableEq, Repr

structure BlobOutcome where
  result : BlobResult
  world : BlobWorld
  progressDelta : Int
  requests : List Int
deriving DecidableEq, Repr

/-- Writing `body` at byte offset `off` of a file that currently holds
`content` (the file was opened without truncation and seeked to `off`). -/
def writeAt (content : List Nat) (off : Nat) (body : List Nat) : List Nat :=
  content.take off ++ body ++ content.drop (off + body.length)

/-- Streaming phase of `downloadBlob` (download.go lines 567-651): range
computation, the single HTTP request, the 200-despite-range downgrade,
the copy into file+hasher+progress, and the final digest check. -/
def downloadBlobStream (H : List Nat → String) (hexhash : String)
    (expectedSize : Int) (resp : Int → Nat × List Nat) (w : BlobWorld) :
    BlobOutcome :=
  let start : Int :=
    match w.partFile with
    | some pc =>
      if expectedSize > 0 ∧ (pc.length : Int) > expectedSize then expectedSize
      else (pc.length : Int)
    | none => 0
  let status := (resp start).1
  let body := (resp start).2
  if status ≠ 200 ∧ status ≠ 206 then
    ⟨.fail "blob fetch failed", w, 0, [start]⟩
  else
    let content0 := w.partFile.getD []
    let hashed0 : List Nat := if start > 0 then content0 else []
    let downgrade : Bool := status = 200 ∧ start > 0
    let content1 := if downgrade then [] else content0
    let hashed1 := if downgrade then [] else hashed0
    let delta0 : Int := if downgrade then -start else 0
    let start1 : Int := if downgrade then 0 else start
    let newContent := writeAt content1 start1.toNat body
    let hashed := hashed1 ++ body
    let delta := delta0 + (body.length : Int)
    if H hashed ≠ hexhash then
      ⟨.fail "sha256 mismatch", ⟨w.outFile, some newContent⟩, delta, [start]⟩
    else
      ⟨.ok, ⟨some newContent, none⟩, delta, [start]⟩

/-- `downloadBlob` (download.go lines 540-651): digest syntax guard, the
already-downloaded fast path, the complete-`.part` fast path, then the
streaming phase. -/
def downloadBlob (H : List Nat → String) (digest : String)
    (expectedSize : Int) (resp : Int → Nat × List Nat) (w : BlobWorld) :
    BlobOutcome :=
  if ¬ "sha256:".data.isPrefixOf digest.data then
    ⟨.fail ("unsupported digest: " ++ digest), w, 0, []⟩
  else
    let hexhash := String.mk (digest.data.drop 7)
    let skipDone : Bool :=
      match w.outFile with
      | some content => expectedSize ≤ 0 ∨ (content.length : Int) ≥ expectedSize
      | none => false
    if skipDone then ⟨.ok, w, 0, []⟩
    else
      let partComplete : Bool :=
        match w.partFile with
        | some pc => expectedSize > 0 ∧ (pc.length : Int) = expectedSize ∧ H pc = hexhash
        | none => false
      if partComplete then
        ⟨.ok, ⟨w.partFile, none⟩, 0, []⟩
      else
        downloadBlobStream H hexhash expectedSize resp w

/-! ## Retrying HTTP (download.go, `httpReqWithRetry`, `isRetryableStatus`,
`backoff`)

An attempt either yields a response with a status code or a transport
error already classified by `isRetryableError`; the sequence of attempt
outcomes is the environment. -/

def isRetryableStatus (code : Nat) : Bool :=
  if code = 429 ∨ code = 408 then true
  else decide (500 ≤ code ∧ code ≤ 599)

inductive AttemptOutcome where
  | resp (status : Nat)
  | failed (retryable : Bool)
deriving DecidableEq, Repr

inductive ReqResult where
  | resp (status : Nat)
  | lastError
deriving DecidableEq, Repr

def retryableOutcome : AttemptOutcome → Bool
  | .resp s => isRetryableStatus s
  | .failed r => r

/-- The attempt loop of `httpReqWithRetry` (download.go lines 918-944);
returns the result together with the number of attempts performed.  The
loop condition is `i < attempts` exactly as in the Go `for` loop; the
extra structural `fuel` argument (instantiated with `attempts`, enough
for every iteration since `i` increases each round) only makes the
recursion structural. -/
def retryLoop (outcomes : Nat → AttemptOutcome) (attempts : Nat) :
    Nat → Nat → ReqResult × Nat
  | 0, i => (.lastError, i)
  | fuel + 1, i =>
    if i < attempts then
      match outcomes i with
      | .resp s =>
        if isRetryableStatus s ∧ i < attempts - 1 then
          retryLoop outcomes attempts fuel (i + 1)
        else (.resp s, i + 1)
      | .failed r =>
        if ¬ r ∨ i = attempts - 1 then (.lastError, i + 1)
        else retryLoop outcomes attempts fuel (i + 1)
    else (.lastError, i)

/-- Number of attempts: Go computes `max(1, retries+1)` in `int`
arithmetic, so the successor wraps at 2^63. -/
def goAttempts (retries : Int) : Int := max 1 (wrap64 (retries + 1))

def httpReqWithRetry (outcomes : Nat → AttemptOutcome) (retries : Int) :
    ReqResult × Nat :=
  retryLoop outcomes (goAttempts retries).toNat (goAttempts retries).toNat 0

/-- `backoff` (download.go lines 972-986) reduced to the slept duration in
nanoseconds as a function of the attempt index `i` and the random draw
`r = rand.Intn(200)`.  `1 << i` and the products are 64-bit. -/
def backoffNs (i : Nat) (r : Nat) : Int :=
  let base : Int := 500000000
  let d := wrap64 ((if i ≥ 64 then 0 else wrap64 (2 ^ i)) * base)
  let jitter : Int := ((r : Int) - 100) * 1000000
  let sleep := wrap64 (d + jitter)
  if sleep < 100000000 then 100000000 else sleep

/-- Modelled from the spec and claim C8 wording: the sleep is
`max(100 ms, 500 ms * 2^i + jitter)` in exact integer arithmetic, for a
jitter of `jitterMs` milliseconds. -/
def specBackoffNs (i : Nat) (jitterMs : Int) : Int :=
  max 100000000 (500000000 * 2 ^ i + jitterMs * 1000000)

/-! ## Progress tracker (download.go, `progress.Add` / `SetDone` / `Write`)

The counter is an `Int` in `[-2^63, 2^63)`; the fetch-add wraps. -/

def progressAdd (total done n : Int) : Int :=
  let newVal := wrap64 (done + n)
  if newVal < 0 then 0
  else if total > 0 ∧ newVal > total then total
  else newVal

def progressSetDone (total n : Int) : Int :=
  let n1 := if n < 0 then 0 else n
  if total > 0 ∧ n1 > total then total else n1

inductive ProgOp where
  | add (n : Int)
  | setDone (n : Int)
  | write (len : Nat)
deriving DecidableEq, Repr

def applyProgOp (total done : Int) : ProgOp → Int
  | .add n => progressAdd total done n
  | .setDone n => progressSetDone total n
  | .write len => progressAdd total done (len : Int)

def runProgOps (total done : Int) (ops : List ProgOp) : Int :=
  ops.foldl (applyProgOp total) done

/-! ## Download manager actions (main.go, `performAction`,
`findTaskLocked`)

A task keeps the fields the action handler touches: id, state, message
and the progress pointer (presence only).  Tasks form a list; the Go code
mutates the first task whose id matches, which the model expresses by
replacing the first match. -/

inductive TaskState where
  | queued
  | downloading
  | paused
  | canceled
  | error
  | done
deriving DecidableEq, Repr

structure Task where
  id : String
  state : TaskState
  message : String
  progress : Option Unit
deriving DecidableEq, Repr

def findTaskLocked : List Task → String → Option Task
  | [], _ => none
  | t :: ts, id => if t.id = id then some t else findTaskLocked ts id

def replaceFirst : List Task → String → Task → List Task
  | [], _, _ => []
  | t :: ts, id, t2 => if t.id = id then t2 :: ts else t :: replaceFirst ts id t2

/-- The per-task body of the `switch action` in `performAction`
(main.go lines 312-359); returns the message, the success flag and the
updated task. -/
def performActionTask (task : Task) (action : String) :
    String × Bool × Task :=
  if action = "pause" then
    if task.state = .downloading then
      ("Paused", true, { task with state := .paused, message := "Paused" })
    else if task.state = .queued then
      ("Paused queued task", true, { task with state := .paused, message := "Paused" })
    else ("Cannot pause task in this state", false, task)
  else if action = "resume" then
    if task.state = .paused ∨ task.state = .error ∨ task.state = .canceled then
      ("Resumed", true,
        { task with state := .queued, message := "Queued", progress := none })
    else ("Cannot resume task", false, task)
  else if action = "cancel" then
    if task.state = .downloading then
      ("Canceled", true, { task with state := .canceled, message := "Canceled" })
    else if task.state = .queued ∨ task.state = .paused then
      ("Canceled", true, { task with state := .canceled, message := "Canceled" })
    else ("Cannot cancel task", false, task)
  else ("Unknown action", false, task)

def performAction (tasks : List Task) (id action : String) :
    String × Bool × List Task :=
  match findTaskLocked tasks id with
  | none => ("Task not found", false, tasks)
  | some t =>
    let r := performActionTask t action
    (r.1, r.2.1, replaceFirst tasks id r.2.2)

/-- Modelled from the claim C4 allowed-from table: which states each
action may fire from. -/
def specAllowedFrom (action : String) (s : TaskState) : Bool :=
  if action = "pause" then s = .downloading ∨ s = .queued
  else if action = "resume" then s = .paused ∨ s = .error ∨ s = .canceled
  else if action = "cancel" then s = .downloading ∨ s = .queued ∨ s = .paused
  else false

/-- Modelled from the claim C4 table: the state a successful action sets. -/
def specTargetState (action : String) : Option TaskState :=
  if action = "pause" then some .paused
  else if action = "resume" then some .queued
  else if action = "cancel" then some .canceled
  else none

/-! ## Model-name sanitization (config, `SanitizeModelName`)

Strings are handled as character lists so that the two trims
(`strings.TrimSpace`, `strings.Trim(s, "-")`) and `strings.Map` are
explicit.  `goIsSpace` covers the Latin-1 white space set of
`unicode.IsSpace`. -/

def goIsSpace (c : Char) : Bool :=
  c = ' ' ∨ c = '\t' ∨ c = '\n' ∨ c = Char.ofNat 11 ∨ c = Char.ofNat 12 ∨
    c = '\r' ∨ c = Char.ofNat 0x85 ∨ c = Char.ofNat 0xA0

def trimBy (p : Char → Bool) (l : List Char) : List Char :=
  ((l.dropWhile p).reverse.dropWhile p).reverse

def mapSanChar (c : Char) : Char :=
  if c = '/' ∨ c = ':' ∨ c = '@' ∨ c = '\\' ∨ c = ' ' then '-' else c

def asciiToLower (c : Char) : Char :=
  if 65 ≤ c.toNat ∧ c.toNat ≤ 90 then Char.ofNat (c.toNat + 32) else c

def SanitizeModelName (model : List Char) : List Char :=
  let s := trimBy goIsSpace model
  if s = [] then "model".data
  else
    let m := s.map mapSanChar
    let t := (trimBy (fun c => c = '-') m).map asciiToLower
    if t = [] then "model".data else t

/-! ## Helper lemmas -/

theorem wrap64_eq_self {x : Int} (h1 : -(2 ^ 63) ≤ x) (h2 : x < 2 ^ 63) :
    wrap64 x = x := by
  unfold wrap64
  have hp : (2 : Int) ^ 63 = 9223372036854775808 := by norm_num
  have hq : (2 : Int) ^ 64 = 18446744073709551616 := by norm_num
  rw [hp, hq] at *
  rw [Int.emod_eq_of_lt (by omega) (by omega)]
  omega

theorem dedupeBlobsGo_sublist (seen : List String) (items : List BlobItem) :
    (dedupeBlobsGo seen items).Sublist items := by
  induction items generalizing seen with
  | nil => simp [dedupeBlobsGo]
  | cons it rest ih =>
    unfold dedupeBlobsGo
    split
    · exact (ih seen).trans (List.sublist_cons_self it rest)
    · exact (ih (it.digest :: seen)).cons₂ it

theorem dedupeBlobsGo_mem (seen : List String) (items : List BlobItem)
    (it : BlobItem) (h : it ∈ dedupeBlobsGo seen items) :
    it ∈ items ∧ it.digest ∉ seen := by
  induction items generalizing seen with
  | nil => simp [dedupeBlobsGo] at h
  | cons a rest ih =>
    unfold dedupeBlobsGo at h
    by_cases hs : a.digest ∈ seen
    · rw [if_pos hs] at h
      have := ih seen h
      exact ⟨List.mem_cons_of_mem a this.1, this.2⟩
    · rw [if_neg hs] at h
      rcases List.mem_cons.mp h with h1 | h1
      · subst h1
        exact ⟨List.mem_cons_self _ _, hs⟩
      · have := ih (a.digest :: seen) h1
        refine ⟨List.mem_cons_of_mem a this.1, ?_⟩
        intro hc
        exact this.2 (List.mem_cons_of_mem _ hc)

theorem dedupeBlobsGo_nodup (seen : List String) (items : List BlobItem) :
    ((dedupeBlobsGo seen items).map BlobItem.digest).Nodup := by
  induction items generalizing seen with
  | nil => simp [dedupeBlobsGo]
  | cons a rest ih =>
    unfold dedupeBlobsGo
    split
    · exact ih seen
    · refine List.nodup_cons.mpr ⟨?_, ih (a.digest :: seen)⟩
      intro hc
      rcases List.mem_map.mp hc with ⟨b, hb, hbd⟩
      have := (dedupeBlobsGo_mem _ _ _ hb).2
      exact this (hbd ▸ List.mem_cons_self _ _)

theorem dedupeBlobsGo_find (seen : List String) (items : List BlobItem)
    (d : String) (hd : d ∉ seen) :
    (dedupeBlobsGo seen items).find? (fun it => it.digest == d) =
      items.find? (fun it => it.digest == d) := by
  induction items generalizing seen with
  | nil => simp [dedupeBlobsGo]
  | cons a rest ih =>
    unfold dedupeBlobsGo
    by_cases hmem : a.digest ∈ seen
    · rw [if_pos hmem]
      have hne : (a.digest == d) = false := by
        simp only [beq_eq_false_iff_ne, ne_eq]
        intro h
        exact hd (h ▸ hmem)
      rw [List.find?_cons_of_neg _ (by simp [hne])]
      exact ih seen hd
    · rw [if_neg hmem]
      by_cases heq : a.digest = d
      · rw [List.find?_cons_of_pos _ (by simp [heq]),
          List.find?_cons_of_pos _ (by simp [heq])]
      · rw [List.find?_cons_of_neg _ (by simp [heq]),
          List.find?_cons_of_neg _ (by simp [heq])]
        exact ih (a.digest :: seen) (by
          intro hc
          rcases List.mem_cons.mp hc with hc | hc
          · exact heq hc.symm
          · exact hd hc)

/-! ## Claim theorems -/

/-- Claim C5: `dedupeBlobs` keeps exactly the first occurrence of each
digest, in input order: the output is a subsequence of the input, its
digests are pairwise distinct, and for every digest the first matching
item (hence its size) is the same in input and output. -/
theorem dedupeBlobs_first_occurrence_wins (items : List BlobItem) :
    (dedupeBlobs items).Sublist items ∧
    ((dedupeBlobs items).map BlobItem.digest).Nodup ∧
    ∀ d : String,
      (dedupeBlobs items).find? (fun it => it.digest == d) =
        items.find? (fun it => it.digest == d) := by
  refine ⟨dedupeBlobsGo_sublist [] items, dedupeBlobsGo_nodup [] items, ?_⟩
  intro d
  exact dedupeBlobsGo_find [] items d (by simp)

/-- Claim C10: a digest without the `sha256:` prefix is rejected before
any effect: no HTTP request, no file change, no progress change. -/
theorem downloadBlob_rejects_bad_digest (H : List Nat → String)
    (digest : String) (expectedSize : Int) (resp : Int → Nat × List Nat)
    (w : BlobWorld) (h : "sha256:".data.isPrefixOf digest.data = false) :
    downloadBlob H digest expectedSize resp w =
      ⟨.fail ("unsupported digest: " ++ digest), w, 0, []⟩ := by
  unfold downloadBlob
  rw [h]
  simp

/-- Witness for C10 at the concrete digest `md5:abc`. -/
theorem downloadBlob_rejects_bad_digest_witness :
    downloadBlob (fun _ => "") "md5:abc" 0 (fun _ => (0, [])) ⟨none, none⟩ =
      ⟨.fail "unsupported digest: md5:abc", ⟨none, none⟩, 0, []⟩ := by
  rw [downloadBlob_rejects_bad_digest (fun _ => "") "md5:abc" 0
    (fun _ => (0, [])) ⟨none, none⟩ (by decide)]
  decide

/-- Per-operation clamping of the progress counter
(download.go, `Add` / `SetDone` / `Write`). -/
theorem applyProgOp_bounds (total done : Int) (op : ProgOp)
    (ht : 0 < total) (h0 : 0 ≤ done) (h1 : done ≤ total) :
    0 ≤ applyProgOp total done op ∧ applyProgOp total done op ≤ total := by
  cases op <;>
    simp only [applyProgOp, progressAdd, progressSetDone] <;>
    split_ifs <;> omega

theorem runProgOps_bounds (total : Int) (ops : List ProgOp) (done : Int)
    (ht : 0 < total) (h0 : 0 ≤ done) (h1 : done ≤ total) :
    0 ≤ runProgOps total done ops ∧ runProgOps total done ops ≤ total := by
  induction ops generalizing done with
  | nil => exact ⟨h0, h1⟩
  | cons op rest ih =>
    have hb := applyProgOp_bounds total done op ht h0 h1
    exact ih (applyProgOp total done op) hb.1 hb.2

/-- Claim C9: with a positive total, any sequence of `Add` (possibly
negative), `SetDone` and `Write` calls keeps the done counter inside
`[0, total]`. -/
theorem progress_done_clamped (total : Int) (ops : List ProgOp)
    (ht : 0 < total) :
    0 ≤ runProgOps total 0 ops ∧ runProgOps total 0 ops ≤ total :=
  runProgOps_bounds total ops 0 ht le_rfl (le_of_lt ht)

/-- Witness for C9: total 10, a negative add, a write, a surplus add and
a negative set. -/
theorem progress_done_clamped_witness :
    0 ≤ runProgOps 10 0 [.add (-5), .write 7, .add 20, .setDone (-3)] ∧
      runProgOps 10 0 [.add (-5), .write 7, .add 20, .setDone (-3)] ≤ 10 :=
  progress_done_clamped 10 [.add (-5), .write 7, .add 20, .setDone (-3)]
    (by norm_num)

/-- Claim C8 counterexample: at attempt index 35 the 64-bit computation
of `500ms * 2^i` overflows, so the slept duration is the 100 ms floor and
not the claimed `max(100ms, 500ms * 2^35 + jitter)`; the draw `r = 100`
gives jitter `0`. -/
theorem backoff_overflow_counterexample :
    backoffNs 35 100 ≠ specBackoffNs 35 ((100 : Int) - 100) := by decide

/-- Claim C8 (amended): for attempt indices `i ≤ 34` — those for which
`500ms * 2^i` fits in a 64-bit duration — and any draw `r` of
`rand.Intn(200)`, the sleep equals `max(100ms, 500ms * 2^i + jitter)`
with `jitter = (r - 100) ms`. -/
theorem backoff_formula (i r : Nat) (hi : i ≤ 34) (hr : r < 200) :
    backoffNs i r = specBackoffNs i ((r : Int) - 100) := by
  have hlt : i < 64 := by omega
  have hpow : (2 : Int) ^ i ≤ 2 ^ 34 :=
    pow_le_pow_right₀ (by norm_num) hi
  have hpow1 : (1 : Int) ≤ 2 ^ i := one_le_pow₀ (by norm_num)
  have h34 : (2 : Int) ^ 34 = 17179869184 := by norm_num
  rw [h34] at hpow
  have h63 : (2 : Int) ^ 63 = 9223372036854775808 := by norm_num
  have hr' : (r : Int) < 200 := by exact_mod_cast hr
  have hr0 : (0 : Int) ≤ (r : Int) := Int.natCast_nonneg r
  have e1 : (if i ≥ 64 then (0 : Int) else wrap64 (2 ^ i)) = 2 ^ i := by
    rw [if_neg (by omega)]
    exact wrap64_eq_self (by omega) (by omega)
  have e2 : wrap64 ((2 : Int) ^ i * 500000000) = 2 ^ i * 500000000 :=
    wrap64_eq_self (by omega) (by omega)
  have e3 : wrap64 ((2 : Int) ^ i * 500000000 + ((r : Int) - 100) * 1000000) =
      2 ^ i * 500000000 + ((r : Int) - 100) * 1000000 :=
    wrap64_eq_self (by omega) (by omega)
  simp only [backoffNs, specBackoffNs, e1, e2, e3]
  rw [if_neg (by omega), max_eq_right (by omega)]
  omega

/-- Witness for the amended C8 at `i = 2`, `r = 150`. -/
theorem backoff_formula_witness :
    backoffNs 2 150 = specBackoffNs 2 ((150 : Int) - 100) :=
  backoff_formula 2 150 (by norm_num) (by norm_num)

/-- Claim C2: when a ranged request (`start > 0`, here a partial `.part`
file of `pc.length` bytes with more expected) is answered with `200`
instead of `206`, `downloadBlob` truncates the `.part` file, resets the
hasher so the digest covers the freshly streamed body only, subtracts
`start` from the shared progress counter (net delta
`|body| - start`), and completes as a from-scratch download succeeding
exactly when the streamed body hashes to the expected digest. -/
theorem downloadBlob_range_downgrade
    (H : List Nat → String) (digest : String) (expectedSize : Int)
    (resp : Int → Nat × List Nat) (pc body : List Nat)
    (hdig : "sha256:".data.isPrefixOf digest.data = true)
    (hpc : 0 < pc.length)
    (hsize : (pc.length : Int) < expectedSize)
    (hresp : resp (pc.length : Int) = (200, body)) :
    downloadBlob H digest expectedSize resp ⟨none, some pc⟩ =
      if H body = String.mk (digest.data.drop 7) then
        ⟨.ok, ⟨some body, none⟩, -(pc.length : Int) + (body.length : Int),
          [(pc.length : Int)]⟩
      else
        ⟨.fail "sha256 mismatch", ⟨none, some body⟩,
          -(pc.length : Int) + (body.length : Int), [(pc.length : Int)]⟩ := by
  have h0 : (0 : Int) < (pc.length : Int) := by exact_mod_cast hpc
  have hss : ¬(expectedSize > 0 ∧ (pc.length : Int) > expectedSize) := by
    rintro ⟨-, h2⟩
    omega
  have hpcc : ¬(expectedSize > 0 ∧ (pc.length : Int) = expectedSize ∧
      H pc = String.mk (digest.data.drop 7)) := by
    rintro ⟨-, h2, -⟩
    omega
  simp only [downloadBlob, downloadBlobStream, hdig, Option.getD_some,
    decide_eq_true_eq]
  rw [if_neg hpcc, if_neg hss, hresp]
  simp only [decide_eq_true_eq]
  simp [h0, writeAt, ite_not]


/-- Witness for C2: a 12-byte `.part` file, expected size 20, server
answers 200 with the full 20-byte body whose hash matches. -/
theorem downloadBlob_range_downgrade_witness :
    downloadBlob (fun l => if l = List.replicate 20 1 then "x" else "y")
      "sha256:x" 20 (fun _ => (200, List.replicate 20 1))
      ⟨none, some (List.replicate 12 0)⟩ =
      ⟨.ok, ⟨some (List.replicate 20 1), none⟩, 8, [12]⟩ := by
  rw [downloadBlob_range_downgrade
    (fun l => if l = List.replicate 20 1 then "x" else "y") "sha256:x" 20
    (fun _ => (200, List.replicate 20 1)) (List.replicate 12 0)
    (List.replicate 20 1) (by decide) (by decide) (by decide) rfl]
  decide

theorem charListLe_cons_iff (a b : Char) (as bs : List Char) :
    charListLe (a :: as) (b :: bs) = true ↔
      a < b ∨ (a = b ∧ charListLe as bs = true) := by
  rcases lt_trichotomy a b with h | h | h
  · simp [charListLe, h]
  · subst h
    simp [charListLe, lt_irrefl]
  · simp only [charListLe, if_neg (not_lt_of_gt h), if_pos h,
      Bool.false_eq_true, false_iff, not_or, not_and]
    exact ⟨not_lt_of_gt h, fun he => absurd he (ne_of_gt h)⟩

theorem charListLe_total (as : List Char) :
    ∀ bs, charListLe as bs = true ∨ charListLe bs as = true := by
  induction as with
  | nil => intro bs; left; rfl
  | cons a as ih =>
    intro bs
    cases bs with
    | nil => right; rfl
    | cons b bs =>
      rcases lt_trichotomy a b with h | h | h
      · left
        exact (charListLe_cons_iff a b as bs).mpr (Or.inl h)
      · subst h
        rcases ih bs with h2 | h2
        · left
          exact (charListLe_cons_iff a a as bs).mpr (Or.inr ⟨rfl, h2⟩)
        · right
          exact (charListLe_cons_iff a a bs as).mpr (Or.inr ⟨rfl, h2⟩)
      · right
        exact (charListLe_cons_iff b a bs as).mpr (Or.inl h)

theorem charListLe_trans (as : List Char) :
    ∀ bs cs, charListLe as bs = true → charListLe bs cs = true →
      charListLe as cs = true := by
  induction as with
  | nil => intro bs cs _ _; rfl
  | cons a as ih =>
    intro bs cs h1 h2
    cases bs with
    | nil => simp [charListLe] at h1
    | cons b bs =>
      cases cs with
      | nil => simp [charListLe] at h2
      | cons c cs =>
        rw [charListLe_cons_iff] at h1 h2 ⊢
        rcases h1 with h1 | ⟨h1e, h1r⟩
        · rcases h2 with h2 | ⟨h2e, h2r⟩
          · exact Or.inl (lt_trans h1 h2)
          · exact Or.inl (h2e ▸ h1)
        · rcases h2 with h2 | ⟨h2e, h2r⟩
          · exact Or.inl (by rw [h1e]; exact h2)
          · exact Or.inr ⟨h1e.trans h2e, ih bs cs h1r h2r⟩

/-- Claim C7: platform selection is a deterministic function of the index
and the platform string.  The candidate list consists exactly of the
digests of the entries matching `("linux", last segment)` case
insensitively, and a chosen digest is a candidate that is
lexicographically least among all candidates. -/
theorem platform_selection_deterministic (ms : List PlatEntry)
    (platform d : String) :
    (d ∈ selectCandidates ms platform ↔
      ∃ m ∈ ms, eqFold m.os "linux" = true ∧
        eqFold m.architecture (lastSegment platform) = true ∧ m.digest = d) ∧
    (chooseDigest ms platform = some d →
      d ∈ selectCandidates ms platform ∧
        ∀ e ∈ selectCandidates ms platform, goStringLe d e = true) := by
  constructor
  · simp only [selectCandidates, List.mem_map, List.mem_filter,
      matchesPlatform, Bool.and_eq_true]
    constructor
    · rintro ⟨m, ⟨hm, h1, h2⟩, h3⟩
      exact ⟨m, hm, h1, h2, h3⟩
    · rintro ⟨m, hm, h1, h2, h3⟩
      exact ⟨m, ⟨hm, h1, h2⟩, h3⟩
  · intro hc
    haveI instTot : IsTotal String (fun a b => goStringLe a b = true) :=
      ⟨fun a b => charListLe_total a.data b.data⟩
    haveI instTrans : IsTrans String (fun a b => goStringLe a b = true) :=
      ⟨fun a b c => charListLe_trans a.data b.data c.data⟩
    unfold chooseDigest at hc
    cases hs : List.insertionSort (fun a b => goStringLe a b = true)
        (selectCandidates ms platform) with
    | nil => rw [hs] at hc; simp at hc
    | cons x xs =>
      rw [hs] at hc
      simp only [List.head?_cons, Option.some.injEq] at hc
      subst hc
      have hsorted := List.sorted_insertionSort
        (fun a b : String => goStringLe a b = true) (selectCandidates ms platform)
      rw [hs] at hsorted
      have hperm := List.perm_insertionSort
        (fun a b : String => goStringLe a b = true) (selectCandidates ms platform)
      rw [hs] at hperm
      constructor
      · exact hperm.mem_iff.mp (List.mem_cons_self _ _)
      · intro e he
        rcases List.mem_cons.mp (hperm.mem_iff.mpr he) with he3 | he3
        · subst he3
          rcases charListLe_total e.data e.data with h | h <;> exact h
        · exact List.rel_of_sorted_cons hsorted e he3

/-- Witness for C7: an index with two linux/amd64 entries (one with
different letter case); the chosen digest is the smaller of the two. -/
theorem platform_selection_deterministic_witness :
    chooseDigest
      [⟨"linux", "amd64", "sha256:bb"⟩, ⟨"Linux", "AMD64", "sha256:aa"⟩]
      "linux/amd64" = some "sha256:aa" ∧
    "sha256:aa" ∈ selectCandidates
      [⟨"linux", "amd64", "sha256:bb"⟩, ⟨"Linux", "AMD64", "sha256:aa"⟩]
      "linux/amd64" ∧
    goStringLe "sha256:aa" "sha256:bb" = true := by
  have h := (platform_selection_deterministic
    [⟨"linux", "amd64", "sha256:bb"⟩, ⟨"Linux", "AMD64", "sha256:aa"⟩]
    "linux/amd64" "sha256:aa").2 (by decide)
  exact ⟨by decide, h.1, h.2 "sha256:bb" (by decide)⟩

/-- Claim C1 (code bug): a pull whose first manifest fetch returns an OCI
index with a matching `linux/amd64` entry, and whose follow-up fetch of
the selected digest succeeds with a proper OCI manifest media type, is
still rejected: the index branch of `run` re-checks the stale
`manifestType` of the first response (never a manifest type in this
branch) instead of the media type of the follow-up fetch, so it always
fails with the unexpected-mediaType error. -/
theorem index_pull_hits_unexpected_mediaType :
    resolveManifest
      (fun _ => .ok (⟨some ⟨⟨"sha256:cfg", 1⟩, []⟩, none⟩, mtOCIManifest))
      ⟨none, some ⟨[⟨"linux", "amd64", "sha256:aa"⟩]⟩⟩
      mtOCIIndex "linux/amd64" =
      .error ("unexpected mediaType for chosen manifest: " ++ mtOCIIndex) := by
  rfl

theorem char_ofNat_toNat_of_valid {n : Nat} (h : n < 55296) :
    (Char.ofNat n).toNat = n := by
  rw [Char.ofNat, dif_pos (Or.inl h)]
  rfl

theorem mapSanChar_not_special (c : Char) :
    mapSanChar c ≠ '/' ∧ mapSanChar c ≠ ':' ∧ mapSanChar c ≠ '@' ∧
      mapSanChar c ≠ '\\' ∧ mapSanChar c ≠ ' ' := by
  unfold mapSanChar
  split_ifs with h
  · decide
  · simp only [not_or] at h
    exact ⟨h.1, h.2.1, h.2.2.1, h.2.2.2.1, h.2.2.2.2⟩

theorem asciiToLower_not_upper (c : Char) :
    ¬(65 ≤ (asciiToLower c).toNat ∧ (asciiToLower c).toNat ≤ 90) := by
  unfold asciiToLower
  split_ifs with h
  · rw [char_ofNat_toNat_of_valid (by omega)]
    omega
  · omega

theorem asciiToLower_ne_of_ne (c d : Char)
    (hd : d.toNat < 97 ∨ 122 < d.toNat) (hne : c ≠ d) :
    asciiToLower c ≠ d := by
  unfold asciiToLower
  split_ifs with h
  · intro he
    have h2 := congrArg Char.toNat he
    rw [char_ofNat_toNat_of_valid (by omega)] at h2
    omega
  · exact hne

theorem mem_of_mem_trimBy {p : Char → Bool} {l : List Char} {c : Char}
    (h : c ∈ trimBy p l) : c ∈ l := by
  unfold trimBy at h
  rw [List.mem_reverse] at h
  have h2 := (List.dropWhile_sublist p).subset h
  rw [List.mem_reverse] at h2
  exact (List.dropWhile_sublist p).subset h2

/-- Claim C6: `SanitizeModelName` always yields a non-empty string with
none of the mapped characters `/ : @ \ space` and no ASCII uppercase
letter, and the empty and all-whitespace inputs both yield the literal
`model`. -/
theorem sanitizeModelName_properties (model : List Char) :
    SanitizeModelName model ≠ [] ∧
    (∀ c ∈ SanitizeModelName model,
      c ≠ '/' ∧ c ≠ ':' ∧ c ≠ '@' ∧ c ≠ '\\' ∧ c ≠ ' ') ∧
    (∀ c ∈ SanitizeModelName model, ¬(65 ≤ c.toNat ∧ c.toNat ≤ 90)) ∧
    SanitizeModelName [] = "model".data ∧
    SanitizeModelName "   ".data = "model".data := by
  refine ⟨?_, ?_, ?_, by decide, by decide⟩
  · simp only [SanitizeModelName]
    split_ifs with h1 h2
    · decide
    · decide
    · exact h2
  · intro c hc
    simp only [SanitizeModelName] at hc
    split_ifs at hc with h1 h2
    · exact (by decide : ∀ x ∈ "model".data,
        x ≠ '/' ∧ x ≠ ':' ∧ x ≠ '@' ∧ x ≠ '\\' ∧ x ≠ ' ') c hc
    · exact (by decide : ∀ x ∈ "model".data,
        x ≠ '/' ∧ x ≠ ':' ∧ x ≠ '@' ∧ x ≠ '\\' ∧ x ≠ ' ') c hc
    · rcases List.mem_map.mp hc with ⟨c1, hc1, rfl⟩
      have hc2 := mem_of_mem_trimBy hc1
      rcases List.mem_map.mp hc2 with ⟨c2, hc3, rfl⟩
      have hns := mapSanChar_not_special c2
      exact ⟨asciiToLower_ne_of_ne _ _ (by decide) hns.1,
        asciiToLower_ne_of_ne _ _ (by decide) hns.2.1,
        asciiToLower_ne_of_ne _ _ (by decide) hns.2.2.1,
        asciiToLower_ne_of_ne _ _ (by decide) hns.2.2.2.1,
        asciiToLower_ne_of_ne _ _ (by decide) hns.2.2.2.2⟩
  · intro c hc
    simp only [SanitizeModelName] at hc
    split_ifs at hc with h1 h2
    · exact (by decide : ∀ x ∈ "model".data,
        ¬(65 ≤ x.toNat ∧ x.toNat ≤ 90)) c hc
    · exact (by decide : ∀ x ∈ "model".data,
        ¬(65 ≤ x.toNat ∧ x.toNat ≤ 90)) c hc
    · rcases List.mem_map.mp hc with ⟨c1, hc1, rfl⟩
      exact asciiToLower_not_upper c1

/-- Witness for C6 at the concrete input `A/b`, whose sanitized form is
`a-b`; the clause instances are discharged at the character `a`. -/
theorem sanitizeModelName_properties_witness :
    SanitizeModelName "A/b".data ≠ [] ∧
    ('a' ≠ '/' ∧ 'a' ≠ ':' ∧ 'a' ≠ '@' ∧ 'a' ≠ '\\' ∧ 'a' ≠ ' ') ∧
    ¬(65 ≤ 'a'.toNat ∧ 'a'.toNat ≤ 90) := by
  have h := sanitizeModelName_properties "A/b".data
  exact ⟨h.1, h.2.1 'a' (by decide), h.2.2.1 'a' (by decide)⟩

theorem retryLoop_resp_cont (outcomes : Nat → AttemptOutcome)
    {attempts fuel i : Nat} {s : Nat} (hi : i < attempts)
    (ho : outcomes i = .resp s)
    (hc : isRetryableStatus s = true ∧ i < attempts - 1) :
    retryLoop outcomes attempts (fuel + 1) i =
      retryLoop outcomes attempts fuel (i + 1) := by
  rw [retryLoop, if_pos hi]
  simp only [ho]
  rw [if_pos hc]

theorem retryLoop_resp_stop (outcomes : Nat → AttemptOutcome)
    {attempts fuel i : Nat} {s : Nat} (hi : i < attempts)
    (ho : outcomes i = .resp s)
    (hc : ¬(isRetryableStatus s = true ∧ i < attempts - 1)) :
    retryLoop outcomes attempts (fuel + 1) i = (.resp s, i + 1) := by
  rw [retryLoop, if_pos hi]
  simp only [ho]
  rw [if_neg hc]

theorem retryLoop_failed_stop (outcomes : Nat → AttemptOutcome)
    {attempts fuel i : Nat} {r : Bool} (hi : i < attempts)
    (ho : outcomes i = .failed r)
    (hc : ¬ r = true ∨ i = attempts - 1) :
    retryLoop outcomes attempts (fuel + 1) i = (.lastError, i + 1) := by
  rw [retryLoop, if_pos hi]
  simp only [ho]
  rw [if_pos hc]

theorem retryLoop_failed_cont (outcomes : Nat → AttemptOutcome)
    {attempts fuel i : Nat} {r : Bool} (hi : i < attempts)
    (ho : outcomes i = .failed r)
    (hc : ¬(¬ r = true ∨ i = attempts - 1)) :
    retryLoop outcomes attempts (fuel + 1) i =
      retryLoop outcomes attempts fuel (i + 1) := by
  rw [retryLoop, if_pos hi]
  simp only [ho]
  rw [if_neg hc]

theorem retryLoop_spec (outcomes : Nat → AttemptOutcome) (attempts : Nat) :
    ∀ fuel i, i < attempts → attempts - i ≤ fuel →
      i < (retryLoop outcomes attempts fuel i).2 ∧
      (retryLoop outcomes attempts fuel i).2 ≤ attempts ∧
      (∀ j, i ≤ j → j + 1 < (retryLoop outcomes attempts fuel i).2 →
        retryableOutcome (outcomes j) = true) ∧
      (∀ s, (retryLoop outcomes attempts fuel i).1 = .resp s →
        outcomes ((retryLoop outcomes attempts fuel i).2 - 1) = .resp s ∧
        (isRetryableStatus s = true →
          (retryLoop outcomes attempts fuel i).2 = attempts)) := by
  intro fuel
  induction fuel with
  | zero => intro i hi hk; omega
  | succ k ih =>
    intro i hi hk
    cases ho : outcomes i with
    | resp s =>
      by_cases hc : isRetryableStatus s = true ∧ i < attempts - 1
      · rw [retryLoop_resp_cont outcomes hi ho hc]
        have H := ih (i + 1) (by omega) (by omega)
        refine ⟨by omega, H.2.1, ?_, H.2.2.2⟩
        intro j hj hj2
        rcases Nat.eq_or_lt_of_le hj with rfl | hj3
        · simp [retryableOutcome, ho, hc.1]
        · exact H.2.2.1 j (by omega) hj2
      · rw [retryLoop_resp_stop outcomes hi ho hc]
        refine ⟨by omega, by omega, ?_, ?_⟩
        · intro j hj hj2
          simp only [] at hj2
          omega
        · intro s2 hs2
          simp only [] at hs2
          cases hs2
          refine ⟨by simpa using ho, ?_⟩
          intro hr
          have h2 : ¬ i < attempts - 1 := fun hlt => hc ⟨hr, hlt⟩
          omega
    | failed r =>
      by_cases hc : ¬ r = true ∨ i = attempts - 1
      · rw [retryLoop_failed_stop outcomes hi ho hc]
        refine ⟨by omega, by omega, ?_, ?_⟩
        · intro j hj hj2
          simp only [] at hj2
          omega
        · intro s2 hs2
          simp only [] at hs2
          cases hs2
      · rw [retryLoop_failed_cont outcomes hi ho hc]
        push_neg at hc
        have H := ih (i + 1) (by omega) (by omega)
        refine ⟨by omega, H.2.1, ?_, H.2.2.2⟩
        intro j hj hj2
        rcases Nat.eq_or_lt_of_le hj with rfl | hj3
        · simp [retryableOutcome, ho]
          exact hc.1
        · exact H.2.2.1 j (by omega) hj2

theorem retryLoop_all_retryable (outcomes : Nat → AttemptOutcome)
    (attempts : Nat) (s : Nat)
    (hlast : outcomes (attempts - 1) = .resp s) :
    ∀ fuel i, i < attempts → attempts - i ≤ fuel →
      (∀ j, i ≤ j → j + 1 < attempts → retryableOutcome (outcomes j) = true) →
      retryLoop outcomes attempts fuel i = (.resp s, attempts) := by
  intro fuel
  induction fuel with
  | zero => intro i hi hk; omega
  | succ k ih =>
    intro i hi hk hall
    by_cases hlasti : i = attempts - 1
    · subst hlasti
      rw [retryLoop_resp_stop outcomes hi hlast (by
        rintro ⟨-, h2⟩
        omega)]
      have : attempts - 1 + 1 = attempts := by omega
      rw [this]
    · have hstep := hall i le_rfl (by omega)
      cases ho : outcomes i with
      | resp s2 =>
        rw [ho] at hstep
        rw [retryLoop_resp_cont outcomes hi ho ⟨hstep, by omega⟩]
        exact ih (i + 1) (by omega) (by omega)
          (fun j hj hj2 => hall j (by omega) hj2)
      | failed r =>
        rw [ho] at hstep
        rw [retryLoop_failed_cont outcomes hi ho (by
          rintro (h2 | h2)
          · exact h2 hstep
          · exact hlasti h2)]
        exact ih (i + 1) (by omega) (by omega)
          (fun j hj hj2 => hall j (by omega) hj2)

/-- Claim C3: for every `retries` value representable such that
`retries + 1` does not overflow, `httpReqWithRetry` performs between 1 and
`max(1, retries+1)` attempts; every attempt before the last one was
retryable (so a non-retryable status is returned immediately), a returned
response is the response of the last attempt performed, a returned
retryable response can only occur on the final attempt
`max(1, retries+1)`, and when every non-final attempt is retryable the
final attempt's response is returned even if its status is retryable. -/
theorem httpReqWithRetry_attempt_policy (outcomes : Nat → AttemptOutcome)
    (retries : Int) (hlo : -(2 ^ 63) ≤ retries)
    (hhi : retries + 1 < 2 ^ 63) :
    0 < (httpReqWithRetry outcomes retries).2 ∧
    ((httpReqWithRetry outcomes retries).2 : Int) ≤ max 1 (retries + 1) ∧
    (∀ j, j + 1 < (httpReqWithRetry outcomes retries).2 →
      retryableOutcome (outcomes j) = true) ∧
    (∀ s, (httpReqWithRetry outcomes retries).1 = .resp s →
      outcomes ((httpReqWithRetry outcomes retries).2 - 1) = .resp s ∧
      (isRetryableStatus s = true →
        ((httpReqWithRetry outcomes retries).2 : Int) = max 1 (retries + 1))) ∧
    (∀ s, outcomes ((max 1 (retries + 1)).toNat - 1) = .resp s →
      (∀ j, j + 1 < (max 1 (retries + 1)).toNat →
        retryableOutcome (outcomes j) = true) →
      httpReqWithRetry outcomes retries =
        (.resp s, (max 1 (retries + 1)).toNat)) := by
  have hw : wrap64 (retries + 1) = retries + 1 :=
    wrap64_eq_self (by omega) hhi
  have hA : goAttempts retries = max 1 (retries + 1) := by
    unfold goAttempts
    rw [hw]
  have hA1 : 1 ≤ goAttempts retries := by
    rw [hA]
    exact le_max_left 1 _
  have hAtoNat : ((goAttempts retries).toNat : Int) = max 1 (retries + 1) := by
    rw [Int.toNat_of_nonneg (by omega), hA]
  have hAeq : (goAttempts retries).toNat = (max 1 (retries + 1)).toNat := by
    rw [hA]
  have H := retryLoop_spec outcomes (goAttempts retries).toNat
    (goAttempts retries).toNat 0 (by omega) (by omega)
  unfold httpReqWithRetry
  refine ⟨by omega, by omega, fun j hj => H.2.2.1 j (by omega) hj, ?_, ?_⟩
  · intro s hs
    refine ⟨(H.2.2.2 s hs).1, fun hr => ?_⟩
    have h2 := (H.2.2.2 s hs).2 hr
    omega
  · intro s hlast hall
    rw [hAeq]
    exact retryLoop_all_retryable outcomes (max 1 (retries + 1)).toNat s hlast
      (max 1 (retries + 1)).toNat 0 (by omega) (by omega)
      (fun j hj hj2 => hall j hj2)

/-- Witness for C3 with `retries = 1`: a retryable 503 on the first
attempt, then a 200 returned on the second of two attempts. -/
theorem httpReqWithRetry_attempt_policy_witness :
    0 < (httpReqWithRetry
      (fun j => if j = 0 then .resp 503 else .resp 200) 1).2 ∧
    ((httpReqWithRetry
      (fun j => if j = 0 then .resp 503 else .resp 200) 1).2 : Int) ≤
      max 1 (1 + 1) ∧
    retryableOutcome
      ((fun j => if j = 0 then AttemptOutcome.resp 503 else .resp 200) 0) =
      true ∧
    (fun j => if j = 0 then AttemptOutcome.resp 503 else .resp 200)
      ((httpReqWithRetry
        (fun j => if j = 0 then .resp 503 else .resp 200) 1).2 - 1) =
      .resp 200 := by
  have h := httpReqWithRetry_attempt_policy
    (fun j => if j = 0 then .resp 503 else .resp 200) 1
    (by norm_num) (by norm_num)
  exact ⟨h.1, h.2.1, h.2.2.1 0 (by decide), (h.2.2.2.1 200 (by decide)).1⟩

theorem performActionTask_spec (t : Task) (action : String) :
    ((performActionTask t action).2.1 = specAllowedFrom action t.state) ∧
    ((performActionTask t action).2.1 = false →
      (performActionTask t action).2.2 = t) ∧
    ((performActionTask t action).2.1 = true →
      some (performActionTask t action).2.2.state = specTargetState action ∧
      (performActionTask t action).2.2.id = t.id ∧
      (action = "resume" → (performActionTask t action).2.2.progress = none)) := by
  by_cases hp : action = "pause"
  · subst hp
    cases ht : t.state <;>
      simp [performActionTask, specAllowedFrom, specTargetState, ht]
  by_cases hr : action = "resume"
  · subst hr
    cases ht : t.state <;>
      simp [performActionTask, specAllowedFrom, specTargetState, ht, hp]
  by_cases hc : action = "cancel"
  · subst hc
    cases ht : t.state <;>
      simp [performActionTask, specAllowedFrom, specTargetState, ht, hp, hr]
  · simp [performActionTask, specAllowedFrom, specTargetState, hp, hr, hc]

theorem replaceFirst_self (tasks : List Task) (id : String) (t : Task)
    (h : findTaskLocked tasks id = some t) : replaceFirst tasks id t = tasks := by
  induction tasks with
  | nil => simp [findTaskLocked] at h
  | cons a rest ih =>
    unfold findTaskLocked at h
    unfold replaceFirst
    by_cases ha : a.id = id
    · rw [if_pos ha] at h ⊢
      have h2 := Option.some.inj h
      rw [← h2]
    · rw [if_neg ha] at h ⊢
      rw [ih h]

/-- Claim C4: `performAction` follows the allowed-from table.  With no
task of the given id it reports failure and changes nothing.  With a
found task, it succeeds exactly when the table allows the action from
the task state; on failure the task list is unchanged; on success the
first matching task is replaced by one in the action's target state
(paused / queued / canceled), with the same id, and `resume` clears its
progress.  Unknown actions are never allowed by the table. -/
theorem performAction_state_machine (tasks : List Task) (id action : String) :
    (findTaskLocked tasks id = none →
      (performAction tasks id action).2.1 = false ∧
      (performAction tasks id action).2.2 = tasks) ∧
    (∀ t, findTaskLocked tasks id = some t →
      ((performAction tasks id action).2.1 = specAllowedFrom action t.state) ∧
      ((performAction tasks id action).2.1 = false →
        (performAction tasks id action).2.2 = tasks) ∧
      ((performAction tasks id action).2.1 = true →
        (performAction tasks id action).2.2 =
          replaceFirst tasks id (performActionTask t action).2.2 ∧
        some (performActionTask t action).2.2.state = specTargetState action ∧
        (performActionTask t action).2.2.id = t.id ∧
        (action = "resume" →
          (performActionTask t action).2.2.progress = none))) := by
  constructor
  · intro h
    unfold performAction
    rw [h]
    exact ⟨rfl, rfl⟩
  · intro t h
    have hs := performActionTask_spec t action
    unfold performAction
    rw [h]
    refine ⟨hs.1, ?_, ?_⟩
    · intro hfail
      show replaceFirst tasks id (performActionTask t action).2.2 = tasks
      rw [hs.2.1 hfail]
      exact replaceFirst_self tasks id t h
    · intro hok
      exact ⟨rfl, (hs.2.2 hok).1, (hs.2.2 hok).2.1, (hs.2.2 hok).2.2⟩

/-- Witness for C4: pausing a downloading task succeeds and sets the
paused target state. -/
theorem performAction_state_machine_witness :
    (performAction [⟨"a", TaskState.downloading, "m", some ()⟩]
      "a" "pause").2.1 = specAllowedFrom "pause" TaskState.downloading ∧
    (performAction [⟨"a", TaskState.downloading, "m", some ()⟩]
      "a" "pause").2.2 =
      replaceFirst [⟨"a", TaskState.downloading, "m", some ()⟩] "a"
        (performActionTask ⟨"a", TaskState.downloading, "m", some ()⟩
          "pause").2.2 ∧
    some (performActionTask ⟨"a", TaskState.downloading, "m", some ()⟩
      "pause").2.2.state = specTargetState "pause" := by
  have h := (performAction_state_machine
    [⟨"a", TaskState.downloading, "m", some ()⟩] "a" "pause").2
    ⟨"a", TaskState.downloading, "m", some ()⟩ rfl
  exact ⟨h.1, (h.2.2 (by decide)).1, (h.2.2 (by decide)).2.1⟩

end OllamaDL
